import Mathlib

/-!
Verification of the MCP client (`client.py`, `mcpserverconnector.py`) against its
natural-language specification.

The development is a shallow embedding of the two source files:

* a model of the JSON values the program passes around, together with executable
  models of Python's `json.dumps(..., ensure_ascii=False)` (`jsonDumps`) and
  `json.loads` (`jsonLoads`), and of Python's `str()` applied to such values
  (`pyStr`);
* a model of `MCPClient` from `client.py`: argument normalization
  (`normalizeArgs`, lines 85-92), the tool gateway `call_tool` (lines 39-51),
  the tool-result folding (`normContent`, lines 99-105), the orchestration loop
  (`processToolCalls`, `handleResponse`, `processQueryLoop`, `processQuery`,
  lines 53-121), the catalog conversion `build_tools_for_deepseek`
  (lines 22-37), and one step of the interactive loop (`chatLoopStep`,
  lines 123-137);
* a model of `MCPServerConnector.__aexit__` from `mcpserverconnector.py`
  (`connectorAexit`, lines 41-51).

Modelling conventions:

* Python exceptions are an explicit error type `PyError`; a function that can
  raise returns `Except PyError _` or threads an `Option PyError`.
* The remote MCP session and the DeepSeek chat client are external
  collaborators; they enter the model as function parameters (`RemoteBehavior`,
  `ModelBehavior`) so every claim quantifies over their behaviour.
* The unbounded `while True:` loop of `process_query` is given explicit fuel
  (the number of model rounds); `none` means the loop did not finish within the
  fuel, which is the model of non-termination.
* JSON numbers are modelled as integers (floats are outside the model), and a
  JSON object models a Python `dict`: a list of key/value pairs in insertion
  order, well-formed (`jsonWF`) when its keys are distinct, which every Python
  `dict` guarantees.  The `jsonLoads` model is a recursive-descent parser that
  accepts the whitespace and escape forms relevant here; it rejects floats and
  does not model `\uXXXX` surrogate pairs or the JSON prohibition of leading
  zeros, none of which the program can produce.
-/

/-- JSON values as passed between the model API, the tool gateway and the
serializer.  `obj` models a Python `dict` (pairs in insertion order). -/
inductive Json where
  | null
  | bool (b : Bool)
  | num (n : Int)
  | str (s : String)
  | arr (xs : List Json)
  | obj (kvs : List (String × Json))

/-- Distinctness of the keys of one object level, using string equality. -/
def nodupKeys : List (String × Json) → Bool
  | [] => true
  | (k, _) :: t => !(t.any fun kv => kv.1 == k) && nodupKeys t

mutual

/-- Well-formedness of a JSON value as the image of a Python value: every
object has distinct keys, as a Python `dict` guarantees. -/
def jsonWF : Json → Bool
  | .null => true
  | .bool _ => true
  | .num _ => true
  | .str _ => true
  | .arr xs => jsonWFList xs
  | .obj kvs => nodupKeys kvs && jsonWFKVs kvs

/-- Well-formedness of every element of a list of JSON values. -/
def jsonWFList : List Json → Bool
  | [] => true
  | x :: xs => jsonWF x && jsonWFList xs

/-- Well-formedness of every value of a key/value list. -/
def jsonWFKVs : List (String × Json) → Bool
  | [] => true
  | (_, v) :: t => jsonWF v && jsonWFKVs t

end

/-- Decimal digit character for a digit value, `0 ↦ '0'`. -/
def digitChar (d : Nat) : Char := Char.ofNat (48 + d)

/-- Little-endian decimal digit characters of `n`, with explicit fuel
(`fuel ≥ n` extracts all digits). -/
def natCharsRev : Nat → Nat → List Char
  | 0, _ => []
  | fuel + 1, n => if n = 0 then [] else digitChar (n % 10) :: natCharsRev fuel (n / 10)

/-- Decimal representation of a natural number, as Python prints it. -/
def natChars (n : Nat) : List Char :=
  if n = 0 then ['0'] else (natCharsRev n n).reverse

/-- Decimal representation of an integer, as Python prints it. -/
def intChars (n : Int) : List Char :=
  if n < 0 then '-' :: natChars n.natAbs else natChars n.toNat

/-- Lowercase hexadecimal digit character for a value below 16. -/
def hexDigit (d : Nat) : Char :=
  if d < 10 then Char.ofNat (48 + d) else Char.ofNat (87 + d)

/-- Escaping of one character inside a JSON string literal, as
`json.dumps(..., ensure_ascii=False)` does: quote, backslash and the named
control characters get two-character escapes, other control characters get
`\u00XX`, and everything else is passed through unescaped. -/
def escapeChar (c : Char) : List Char :=
  if c = '"' then ['\\', '"']
  else if c = '\\' then ['\\', '\\']
  else if c = '\n' then ['\\', 'n']
  else if c = '\r' then ['\\', 'r']
  else if c = '\t' then ['\\', 't']
  else if c.toNat = 8 then ['\\', 'b']
  else if c.toNat = 12 then ['\\', 'f']
  else if c.toNat < 32 then ['\\', 'u', '0', '0', hexDigit (c.toNat / 16), hexDigit (c.toNat % 16)]
  else [c]

/-- Escaping of a whole character sequence for a JSON string literal. -/
def escapeChars : List Char → List Char
  | [] => []
  | c :: cs => escapeChar c ++ escapeChars cs

/-- Rendering of a JSON string literal including its quotes. -/
def renderStr (s : String) : List Char := '"' :: (escapeChars s.data ++ ['"'])

mutual

/-- Characters of the serialization of a JSON value, as
`json.dumps(value, ensure_ascii=False)` produces them: separators are
a comma plus space and a colon plus space (Python's defaults), object
members keep insertion order. -/
def renderChars : Json → List Char
  | .null => 'n' :: ['u', 'l', 'l']
  | .bool true => 't' :: ['r', 'u', 'e']
  | .bool false => 'f' :: ['a', 'l', 's', 'e']
  | .num n => intChars n
  | .str s => renderStr s
  | .arr [] => ['[', ']']
  | .arr (x :: xs) => '[' :: (renderChars x ++ renderArrRest xs)
  | .obj [] => ['{', '}']
  | .obj ((k, v) :: kvs) =>
    '{' :: (renderStr k ++ ':' :: ' ' :: (renderChars v ++ renderObjRest kvs))

/-- Continuation of an array rendering after its first element. -/
def renderArrRest : List Json → List Char
  | [] => [']']
  | x :: xs => ',' :: ' ' :: (renderChars x ++ renderArrRest xs)

/-- Continuation of an object rendering after its first member. -/
def renderObjRest : List (String × Json) → List Char
  | [] => ['}']
  | (k, v) :: kvs => ',' :: ' ' :: (renderStr k ++ ':' :: ' ' :: (renderChars v ++ renderObjRest kvs))

end

/-- Model of `json.dumps(value, ensure_ascii=False)`. -/
def jsonDumps (j : Json) : String := String.mk (renderChars j)

/-- JSON insignificant whitespace: space, tab, line feed, carriage return. -/
def isWsC (c : Char) : Bool :=
  c.toNat == 32 || c.toNat == 9 || c.toNat == 10 || c.toNat == 13

/-- ASCII decimal digit test, by code point. -/
def isDigitC (c : Char) : Bool := 48 ≤ c.toNat && c.toNat ≤ 57

/-- Dropping leading JSON whitespace. -/
def skipWs : List Char → List Char
  | [] => []
  | c :: cs => if isWsC c then skipWs cs else c :: cs

/-- Value of one hexadecimal digit character, if it is one. -/
def hexVal (c : Char) : Option Nat :=
  if 48 ≤ c.toNat && c.toNat ≤ 57 then some (c.toNat - 48)
  else if 97 ≤ c.toNat && c.toNat ≤ 102 then some (c.toNat - 87)
  else if 65 ≤ c.toNat && c.toNat ≤ 70 then some (c.toNat - 55)
  else none

/-- Parsing of the body of a JSON string literal (after the opening quote),
returning the decoded characters and the input after the closing quote.
Escape sequences follow the JSON grammar; an unescaped control character is
rejected, as `json.loads` rejects it in strict mode. -/
def parseStrChars : List Char → Option (List Char × List Char)
  | [] => none
  | c :: cs =>
    if c = '"' then some ([], cs)
    else if c = '\\' then
      match cs with
      | [] => none
      | e :: cs1 =>
        if e = '"' then (parseStrChars cs1).map fun p => ('"' :: p.1, p.2)
        else if e = '\\' then (parseStrChars cs1).map fun p => ('\\' :: p.1, p.2)
        else if e = '/' then (parseStrChars cs1).map fun p => ('/' :: p.1, p.2)
        else if e = 'b' then (parseStrChars cs1).map fun p => ('\x08' :: p.1, p.2)
        else if e = 'f' then (parseStrChars cs1).map fun p => ('\x0C' :: p.1, p.2)
        else if e = 'n' then (parseStrChars cs1).map fun p => ('\n' :: p.1, p.2)
        else if e = 'r' then (parseStrChars cs1).map fun p => ('\r' :: p.1, p.2)
        else if e = 't' then (parseStrChars cs1).map fun p => ('\t' :: p.1, p.2)
        else if e = 'u' then
          match cs1 with
          | h1 :: h2 :: h3 :: h4 :: cs2 =>
            match hexVal h1, hexVal h2, hexVal h3, hexVal h4 with
            | some a, some b, some c2, some d =>
              (parseStrChars cs2).map fun p =>
                (Char.ofNat (((a * 16 + b) * 16 + c2) * 16 + d) :: p.1, p.2)
            | _, _, _, _ => none
          | _ => none
        else none
    else if c.toNat < 32 then none
    else (parseStrChars cs).map fun p => (c :: p.1, p.2)

/-- Parsing of an unsigned decimal integer: one or more digits, rejected if a
fractional or exponent part follows, since the model covers integers only. -/
def parseNatPart (cs : List Char) : Option (Nat × List Char) :=
  let ds := cs.takeWhile isDigitC
  let r := cs.dropWhile isDigitC
  if ds = [] then none
  else if r.head? = some '.' || r.head? = some 'e' || r.head? = some 'E' then none
  else some (ds.foldl (fun a c => 10 * a + (c.toNat - 48)) 0, r)

/-- Parsing of a JSON number (integer form, with optional leading minus). -/
def parseNum (cs : List Char) : Option (Json × List Char) :=
  if cs.head? = some '-' then
    (parseNatPart cs.tail).map fun p => (Json.num (-(p.1 : Int)), p.2)
  else
    (parseNatPart cs).map fun p => (Json.num (p.1 : Int), p.2)

mutual

/-- Parsing of one JSON value after leading whitespace; the fuel bounds the
recursion depth and every recursive call decreases it, so any fuel of at
least the input length suffices. -/
def parseVal : Nat → List Char → Option (Json × List Char)
  | 0, _ => none
  | f + 1, input =>
    match skipWs input with
    | 'n' :: 'u' :: 'l' :: 'l' :: r => some (.null, r)
    | 't' :: 'r' :: 'u' :: 'e' :: r => some (.bool true, r)
    | 'f' :: 'a' :: 'l' :: 's' :: 'e' :: r => some (.bool false, r)
    | '"' :: r => (parseStrChars r).map fun p => (Json.str (String.mk p.1), p.2)
    | '[' :: r =>
      let r1 := skipWs r
      if r1.head? = some ']' then some (.arr [], r1.tail)
      else (parseElems f r1).map fun p => (Json.arr p.1, p.2)
    | '{' :: r =>
      let r1 := skipWs r
      if r1.head? = some '}' then some (.obj [], r1.tail)
      else (parseMembers f r1).map fun p => (Json.obj p.1, p.2)
    | cs => parseNum cs

/-- Parsing of the comma-separated elements of a non-empty array, up to and
including the closing bracket. -/
def parseElems : Nat → List Char → Option (List Json × List Char)
  | 0, _ => none
  | f + 1, cs =>
    match parseVal f cs with
    | none => none
    | some (v, r) =>
      match skipWs r with
      | ',' :: r1 =>
        match parseElems f r1 with
        | some (xs, rr) => some (v :: xs, rr)
        | none => none
      | ']' :: r1 => some ([v], r1)
      | _ => none

/-- Parsing of the comma-separated members of a non-empty object, up to and
including the closing brace. -/
def parseMembers : Nat → List Char → Option (List (String × Json) × List Char)
  | 0, _ => none
  | f + 1, cs =>
    match skipWs cs with
    | '"' :: r =>
      match parseStrChars r with
      | none => none
      | some (k, r1) =>
        match skipWs r1 with
        | ':' :: r2 =>
          match parseVal f r2 with
          | none => none
          | some (v, r3) =>
            match skipWs r3 with
            | ',' :: r4 =>
              match parseMembers f r4 with
              | some (kvs, rr) => some ((String.mk k, v) :: kvs, rr)
              | none => none
            | '}' :: r4 => some ([(String.mk k, v)], r4)
            | _ => none
        | _ => none
    | _ => none

end

/-- Model of `json.loads`: parse one value, require only whitespace after it;
`none` models a raised `json.JSONDecodeError`. -/
def jsonLoads (s : String) : Option Json :=
  match parseVal (s.length + 1) s.data with
  | some (v, rest) => if skipWs rest = [] then some v else none
  | none => none

example : jsonDumps (.obj [("city", .str "Beijing")]) = String.mk ('{' :: "\"city\": \"Beijing\"".data ++ ['}']) := rfl

example : jsonLoads (jsonDumps (.obj [("t", .num 21), ("c", .str "clear")])) = some (.obj [("t", .num 21), ("c", .str "clear")]) := rfl

example : jsonLoads "[1, -20, \"a\\n\"]" = some (.arr [.num 1, .num (-20), .str "a\n"]) := rfl

example : jsonLoads "[True]" = none := rfl

example : jsonLoads "not json" = none := rfl

/-! ## Model of `client.py` -/

/-- Python exceptions that the modelled code can raise or propagate. -/
inductive PyError where
  | runtimeError (msg : String)
  | attributeError (msg : String)
  | jsonDecodeError (doc : String)
  | typeError (msg : String)
  | apiError (msg : String)
deriving DecidableEq, Repr

/-- Arguments of one tool call as the model API delivers them
(`tool_call.function.arguments`): either a serialized JSON string or an
already-structured value.  A pydantic object (the `model_dump` branch of
lines 87-88) is identified with the structured value it dumps to. -/
inductive ArgVal where
  | str (s : String)
  | structured (j : Json)

/-- Content of a tool result: either already a Python string or a structured
value.  A pydantic content object (the `model_dump` branch of lines 100-101)
is identified with the structured value it dumps to. -/
inductive ContentV where
  | str (s : String)
  | structured (j : Json)

/-- Result object of a tool invocation.  The real `CallToolResult` carries an
`isError` flag; the ad-hoc shim built on line 51 carries only `content`, which
is modelled by `isError = none`. -/
structure ToolResult where
  content : ContentV
  isError : Option Bool

/-- Behaviour of the remote `session.call_tool` on one invocation: either a
returned result or a raised exception (transport or protocol-decode fault),
carried as its message string. -/
inductive RemoteOutcome where
  | ok (r : ToolResult)
  | raises (e : String)

/-- The remote side as a function of tool name and structured arguments. -/
def RemoteBehavior := String → Json → RemoteOutcome

/-- The `function` field of a model-issued tool call. -/
structure ToolCallFunction where
  name : String
  arguments : ArgVal

/-- A model-issued tool call request (`tool_call.id`, `tool_call.function`). -/
structure ToolCall where
  id : String
  function : ToolCallFunction

/-- One turn of the conversation state (`messages` in `process_query`):
a user message, an assistant message with its tool calls, or a tool-result
message (`role: tool`) referencing a call id.  An assistant message with
absent `tool_calls` is modelled by the empty list. -/
inductive Turn where
  | user (content : String)
  | assistant (content : Option String) (tool_calls : List ToolCall)
  | tool (tool_call_id : String) (content : String)

/-- Whether a turn is a user turn. -/
def Turn.isUser : Turn → Bool
  | .user _ => true
  | _ => false

/-- Whether a turn is an assistant turn. -/
def Turn.isAssistant : Turn → Bool
  | .assistant _ _ => true
  | _ => false

/-- Whether a turn is a tool-result turn. -/
def Turn.isToolResult : Turn → Bool
  | .tool _ _ => true
  | _ => false

/-- The message of one model choice: optional text content and the list of
requested tool calls (`None` or missing `tool_calls` is the empty list, which
is exactly the falsy test of line 71). -/
structure ModelResponse where
  content : Option String
  tool_calls : List ToolCall

/-- Outcome of one `chat.completions.create` call: a response, or an
exception raised by the chat client itself. -/
inductive ModelStep where
  | returns (resp : ModelResponse)
  | raises (e : String)

/-- A tool descriptor as discovered from the MCP server at connection time. -/
structure ToolDescriptor where
  name : String
  description : String
  inputSchema : Json

/-- The DeepSeek-format function declaration built on lines 28-35. -/
structure DeepSeekFunction where
  name : String
  description : String
  input_schema : Json

/-- One entry of the tool list sent to DeepSeek. -/
structure DeepSeekTool where
  type : String
  function : DeepSeekFunction

/-- State of the `MCPServerConnector` as `MCPClient` sees it: the session (or
`none` before initialization) and the tool catalog in insertion order of the
`self.tools` dict. -/
structure MCPConnector where
  session : Option Unit
  tools : List ToolDescriptor

/-- The chat model client as a function of the message sequence and the tool
declarations, one `create` call per application. -/
def ModelBehavior := List Turn → List DeepSeekTool → ModelStep

/-- Model of `build_tools_for_deepseek` (lines 22-37): converts the connector
catalog; with no connector (`self.connector is None`) the attribute access
`self.connector.tools` raises `AttributeError`. -/
def build_tools_for_deepseek (conn : Option MCPConnector) : Except PyError (List DeepSeekTool) :=
  match conn with
  | none => .error (.attributeError "NoneType object has no attribute tools")
  | some c => .ok (c.tools.map fun t => ⟨"function", ⟨t.name, t.description, t.inputSchema⟩⟩)

/-- The deliberate not-connected failure of `call_tool` (line 44), which is
what the specification calls `NotConnectedError`. -/
def notConnectedError : PyError := .runtimeError "MCP session not initialized."

/-- Model of `call_tool` (lines 39-51): raises the not-connected error when
the connector or its session is missing; otherwise invokes the remote side
and converts any raised exception into the ad-hoc result object of line 51,
whose content is the prefixed message and which has no `is_error` field. -/
def call_tool (conn : Option MCPConnector) (remote : RemoteBehavior)
    (tool_name : String) (tool_args : Json) : Except PyError ToolResult :=
  match conn with
  | none => .error notConnectedError
  | some c =>
    match c.session with
    | none => .error notConnectedError
    | some _ =>
      match remote tool_name tool_args with
      | .ok r => .ok r
      | .raises e => .ok ⟨.str ("[工具调用异常] " ++ e), none⟩

/-- Model of the argument normalization of lines 85-92: a pydantic object is
dumped (modelled as already structured), a string is parsed with
`json.loads` — whose failure raises out, there is no enclosing `try` —
and anything else is passed through unchanged. -/
def normalizeArgs : ArgVal → Except PyError Json
  | .structured j => .ok j
  | .str s =>
    match jsonLoads s with
    | some j => .ok j
    | none => .error (.jsonDecodeError s)


/-- Escaping of one character inside a Python string repr with quote
character `q`: backslash, the quote, and the named control characters get
two-character escapes, other control characters (and DEL) get `\xXX`. -/
def pyEscapeChar (q : Char) (c : Char) : List Char :=
  if c = '\\' then ['\\', '\\']
  else if c = q then ['\\', q]
  else if c = '\n' then ['\\', 'n']
  else if c = '\r' then ['\\', 'r']
  else if c = '\t' then ['\\', 't']
  else if c.toNat < 32 || c.toNat = 127 then
    ['\\', 'x', hexDigit (c.toNat / 16), hexDigit (c.toNat % 16)]
  else [c]

/-- Escaping of a whole character sequence for a Python string repr. -/
def pyEscapeChars (q : Char) : List Char → List Char
  | [] => []
  | c :: cs => pyEscapeChar q c ++ pyEscapeChars q cs

/-- Python `repr` of a string: single-quoted, or double-quoted when the
string contains a single quote but no double quote.  (The repr of
non-printable non-ASCII characters is not modelled.) -/
def pyReprStr (s : String) : List Char :=
  let q := if s.data.contains (Char.ofNat 39) && !(s.data.contains '"') then '"' else Char.ofNat 39
  q :: (pyEscapeChars q s.data ++ [q])

mutual

/-- Characters of Python `repr` applied to the Python value a `Json` value
models: `None`, `True`, `False`, decimal integers, quoted strings, and
bracketed containers with comma-space separators.  This is what `str()` on a
list or other non-string, non-dict content produces, and it is not JSON. -/
def pyRepr : Json → List Char
  | .null => ['N', 'o', 'n', 'e']
  | .bool true => ['T', 'r', 'u', 'e']
  | .bool false => ['F', 'a', 'l', 's', 'e']
  | .num n => intChars n
  | .str s => pyReprStr s
  | .arr [] => ['[', ']']
  | .arr (x :: xs) => '[' :: (pyRepr x ++ pyReprArrRest xs)
  | .obj [] => ['{', '}']
  | .obj ((k, v) :: kvs) =>
    '{' :: (pyReprStr k ++ ':' :: ' ' :: (pyRepr v ++ pyReprObjRest kvs))

/-- Continuation of a list repr after its first element. -/
def pyReprArrRest : List Json → List Char
  | [] => [']']
  | x :: xs => ',' :: ' ' :: (pyRepr x ++ pyReprArrRest xs)

/-- Continuation of a dict repr after its first member. -/
def pyReprObjRest : List (String × Json) → List Char
  | [] => ['}']
  | (k, v) :: kvs => ',' :: ' ' :: (pyReprStr k ++ ':' :: ' ' :: (pyRepr v ++ pyReprObjRest kvs))

end

/-- Model of Python `str()` on a modelled value: the identity on strings and
`repr` on everything else. -/
def pyStr : Json → String
  | .str s => s
  | j => String.mk (pyRepr j)

/-- Model of the content normalization of lines 99-105: a pydantic content
object is dumped to its dict (already structured here); then content that is
neither a string nor a dict is converted with `str()`; finally a remaining
non-string — exactly the dict case — is serialized with
`json.dumps(..., ensure_ascii=False)`.  A string is returned untouched. -/
def normContent : ContentV → String
  | .str s => s
  | .structured j =>
    match j with
    | .obj kvs => jsonDumps (.obj kvs)
    | j => pyStr j

/-- Model of the per-call loop of lines 84-111 over the remaining tool calls:
normalize the arguments, invoke `call_tool`, fold the result content into a
`role: tool` message.  A raised exception stops the loop at that call and is
returned beside the messages appended so far, since the source has no `try`
around the loop body. -/
def processToolCalls (conn : Option MCPConnector) (remote : RemoteBehavior) :
    List Turn → List ToolCall → List Turn × Option PyError
  | messages, [] => (messages, none)
  | messages, tc :: rest =>
    match normalizeArgs tc.function.arguments with
    | .error e => (messages, some e)
    | .ok tool_args =>
      match call_tool conn remote tc.function.name tool_args with
      | .error e => (messages, some e)
      | .ok tool_result =>
        processToolCalls conn remote
          (messages ++ [Turn.tool tc.id (normContent tool_result.content)]) rest

/-- Outcome of handling one model response inside the loop. -/
inductive RoundOutcome where
  | final (content : Option String)
  | next (messages : List Turn)
  | raised (e : PyError) (messages : List Turn)

/-- Model of the body of the `while True:` loop (lines 68-111) for one model
response: with no tool calls the loop breaks with the response content;
otherwise the assistant message (with its `tool_calls`) is appended and every
call is processed in order. -/
def handleResponse (conn : Option MCPConnector) (remote : RemoteBehavior)
    (messages : List Turn) (resp : ModelResponse) : RoundOutcome :=
  match resp.tool_calls with
  | [] => .final resp.content
  | _ :: _ =>
    let messages1 := messages ++ [Turn.assistant resp.content resp.tool_calls]
    match processToolCalls conn remote messages1 resp.tool_calls with
    | (ms, none) => .next ms
    | (ms, some e) => .raised e ms

/-- Result of one whole query resolution: the returned final text or the
exception that propagated out of `process_query`, together with the
conversation state (`messages`) at that point. -/
inductive QueryResult where
  | ok (text : String) (messages : List Turn)
  | raised (e : PyError) (messages : List Turn)

/-- Model of `"\n".join(final_text)` on the singleton list the source builds:
the loop appends to `final_text` exactly once, in the break branch, so the
returned text is that element; joining a `None` content raises `TypeError`. -/
def renderFinal (messages : List Turn) : Option String → QueryResult
  | some t => .ok t messages
  | none => .raised (.typeError "sequence item 0: expected str instance") messages

/-- Model of the model-call loop of `process_query` (lines 61-119) with fuel
bounding the number of model rounds: each round performs one
`chat.completions.create` call — whose raised exception propagates, there is
no enclosing `try` — and handles the response; `none` is fuel exhaustion,
the model of a loop that does not finish. -/
def processQueryLoop (conn : Option MCPConnector) (remote : RemoteBehavior)
    (model : ModelBehavior) (tools : List DeepSeekTool) :
    Nat → List Turn → Option QueryResult
  | 0, _ => none
  | fuel + 1, messages =>
    match model messages tools with
    | .raises e => some (.raised (.apiError e) messages)
    | .returns resp =>
      match handleResponse conn remote messages resp with
      | .final content => some (renderFinal messages content)
      | .next ms => processQueryLoop conn remote model tools fuel ms
      | .raised e ms => some (.raised e ms)

/-- Model of `process_query` (lines 53-121): build the initial message list
from the query, build the DeepSeek tool list — which raises before the first
model call when no connector is set — and run the loop. -/
def processQuery (conn : Option MCPConnector) (remote : RemoteBehavior)
    (model : ModelBehavior) (fuel : Nat) (query : String) : Option QueryResult :=
  match build_tools_for_deepseek conn with
  | .error e => some (.raised e [Turn.user query])
  | .ok tools => processQueryLoop conn remote model tools fuel [Turn.user query]

/-- Outcome of one iteration of the interactive loop of `chat_loop`. -/
inductive LoopStep where
  | quit
  | answered (text : String)
  | errorReported (e : PyError)

/-- Whether the interactive loop goes on to read the next query after this
iteration (everything except the `quit` break). -/
def loopContinues : LoopStep → Bool
  | .quit => false
  | _ => true

/-- Characters removed by Python `str.strip()` with no argument: space and
the ASCII whitespace controls (tab through carriage return). -/
def isPySpace (c : Char) : Bool := c.toNat == 32 || (9 ≤ c.toNat && c.toNat ≤ 13)

/-- Model of Python `str.strip()`: drop leading and trailing whitespace. -/
def pyStrip (s : String) : String :=
  String.mk (((s.data.dropWhile isPySpace).reverse.dropWhile isPySpace).reverse)

/-- ASCII lowercase conversion of one character. -/
def toLowerC (c : Char) : Char :=
  if 65 ≤ c.toNat && c.toNat ≤ 90 then Char.ofNat (c.toNat + 32) else c

/-- Model of Python `str.lower()` on the ASCII range. -/
def pyLower (s : String) : String := String.mk (s.data.map toLowerC)

/-- Model of one iteration of `chat_loop` (lines 129-138): strip the input
line, break on `quit` (case-insensitive), otherwise resolve the query; the
surrounding `except Exception` catches an exception propagating out of
`process_query`, reports it, and the loop continues.  The `runQuery`
parameter is the query resolution; `none` models a resolution that does not
terminate. -/
def chatLoopStep (line : String) (runQuery : String → Option QueryResult) : Option LoopStep :=
  let query := pyStrip line
  if pyLower query = "quit" then some .quit
  else
    match runQuery query with
    | none => none
    | some (.ok t _) => some (.answered t)
    | some (.raised e _) => some (.errorReported e)

/-! ## Model of `mcpserverconnector.py` teardown -/

/-- Which of the two context managers were created by `__aenter__` (they are
`None` before that). -/
structure ConnResources where
  session_cm : Bool
  sse_cm : Bool

/-- Observable trace of one `__aexit__` run: which inner `__aexit__` calls
were made, and whether an exception propagated out. -/
structure AexitTrace where
  sessionExitCalled : Bool
  sseExitCalled : Bool
  raised : Bool

/-- Model of `MCPServerConnector.__aexit__` (lines 41-51): close the session
context manager if present, then close the SSE context manager if present.
The two calls are sequential with no `try`/`finally`, so an exception raised
by the session close skips the SSE close.  The exception info passed through
by the caller does not influence the control flow, hence it is not a
parameter; `sessionExitRaises` is the behaviour of the inner
`ClientSession.__aexit__` call. -/
def connectorAexit (r : ConnResources) (sessionExitRaises : Bool) : AexitTrace :=
  if r.session_cm then
    if sessionExitRaises then ⟨true, false, true⟩
    else ⟨true, r.sse_cm, false⟩
  else ⟨false, r.sse_cm, false⟩

/-! ## Round trip of `jsonLoads` after `jsonDumps` -/

theorem skipWs_cons_not {c : Char} (cs : List Char) (h : isWsC c = false) :
    skipWs (c :: cs) = c :: cs := by
  simp [skipWs, h]

theorem hexVal_hexDigit (d : Nat) (h : d < 16) : hexVal (hexDigit d) = some d := by
  have key : ∀ m : Fin 16, hexVal (hexDigit m.val) = some m.val := by decide
  exact key ⟨d, h⟩

theorem digitChar_isDigit (d : Nat) (h : d < 10) : isDigitC (digitChar d) = true := by
  have key : ∀ m : Fin 10, isDigitC (digitChar m.val) = true := by decide
  exact key ⟨d, h⟩

theorem digitChar_toNat (d : Nat) (h : d < 10) : (digitChar d).toNat = 48 + d := by
  have key : ∀ m : Fin 10, (digitChar m.val).toNat = 48 + m.val := by decide
  exact key ⟨d, h⟩

theorem char_eq_of_toNat {c : Char} {d : Char} (h : c.toNat = d.toNat) : c = d := by
  have h1 := Char.ofNat_toNat c
  have h2 := Char.ofNat_toNat d
  rw [h] at h1
  rw [h2] at h1
  exact h1.symm

theorem parseStr_round : ∀ (l rest : List Char),
    parseStrChars (escapeChars l ++ '"' :: rest) = some (l, rest)
  | [], rest => by
    show parseStrChars ([] ++ '"' :: rest) = some ([], rest)
    rw [List.nil_append]
    unfold parseStrChars
    simp
  | c :: l, rest => by
    have ih := parseStr_round l rest
    show parseStrChars ((escapeChar c ++ escapeChars l) ++ '"' :: rest) = _
    rw [List.append_assoc]
    unfold escapeChar
    split_ifs with h1 h2 h3 h4 h5 h6 h7 h8
    · subst h1
      simp only [List.cons_append, List.nil_append]
      rw [parseStrChars.eq_def]
      simp [ih]
    · subst h2
      simp only [List.cons_append, List.nil_append]
      rw [parseStrChars.eq_def]
      simp [ih]
    · subst h3
      simp only [List.cons_append, List.nil_append]
      rw [parseStrChars.eq_def]
      simp [ih]
    · subst h4
      simp only [List.cons_append, List.nil_append]
      rw [parseStrChars.eq_def]
      simp [ih]
    · subst h5
      simp only [List.cons_append, List.nil_append]
      rw [parseStrChars.eq_def]
      simp [ih]
    · have hc : c = '\x08' := char_eq_of_toNat (by rw [h6]; rfl)
      subst hc
      simp only [List.cons_append, List.nil_append]
      rw [parseStrChars.eq_def]
      simp [ih]
    · have hc : c = '\x0C' := char_eq_of_toNat (by rw [h7]; rfl)
      subst hc
      simp only [List.cons_append, List.nil_append]
      rw [parseStrChars.eq_def]
      simp [ih]
    · have e0 : hexVal '0' = some 0 := rfl
      have e1 : hexVal (hexDigit (c.toNat / 16)) = some (c.toNat / 16) :=
        hexVal_hexDigit _ (by omega)
      have e2 : hexVal (hexDigit (c.toNat % 16)) = some (c.toNat % 16) :=
        hexVal_hexDigit _ (by omega)
      have harith : c.toNat / 16 * 16 + c.toNat % 16 = c.toNat := by omega
      simp only [List.cons_append, List.nil_append]
      rw [parseStrChars.eq_def]
      simp [e0, e1, e2, ih, harith, Char.ofNat_toNat]
    · simp only [List.singleton_append]
      rw [parseStrChars.eq_def]
      simp [if_neg h1, if_neg h2, if_neg h8, ih]

/-- Safety of the input following a rendered number: the next character (if
any) must not extend the number, which holds at every position where the
renderer places one (separators, closing brackets, end of input). -/
def numSafe : List Char → Prop
  | [] => True
  | c :: _ => isDigitC c = false ∧ c ≠ '.' ∧ c ≠ 'e' ∧ c ≠ 'E'

/-- The head of the remainder (if any) fails the scan predicate. -/
def headNotP (p : Char → Bool) : List Char → Prop
  | [] => True
  | c :: _ => p c = false

theorem takeWhile_all_append (p : Char → Bool) : ∀ (l r : List Char),
    (∀ c ∈ l, p c = true) → headNotP p r →
    (l ++ r).takeWhile p = l ∧ (l ++ r).dropWhile p = r
  | [], r => by
    intro _ hr
    match r with
    | [] => simp
    | c :: t =>
      have hc : p c = false := hr
      simp [List.takeWhile_cons, List.dropWhile_cons, hc]
  
  | a :: l, r => by
    intro hl hr
    have ha : p a = true := hl a (by simp)
    have ih := takeWhile_all_append p l r (fun c hc => hl c (by simp [hc])) hr
    simp [List.takeWhile_cons, List.dropWhile_cons, ha, ih.1, ih.2]

theorem natCharsRev_digits : ∀ (fuel n : Nat), n ≤ fuel →
    natCharsRev fuel n = (Nat.digits 10 n).map digitChar
  | 0, n => by
    intro hn
    have : n = 0 := by omega
    subst this
    simp [natCharsRev]
  | fuel + 1, n => by
    intro hn
    by_cases h : n = 0
    · subst h; simp [natCharsRev]
    · have hd : Nat.digits 10 n = n % 10 :: Nat.digits 10 (n / 10) :=
        Nat.digits_def' (by norm_num) (Nat.pos_of_ne_zero h)
      have hdiv : n / 10 ≤ fuel := by
        have := Nat.div_lt_self (Nat.pos_of_ne_zero h) (by norm_num : 1 < 10)
        omega
      rw [natCharsRev, if_neg h, hd, natCharsRev_digits fuel (n / 10) hdiv, List.map_cons]

theorem natChars_all_digits (n : Nat) : ∀ c ∈ natChars n, isDigitC c = true := by
  intro c hc
  by_cases h : n = 0
  · subst h
    simp [natChars] at hc
    subst hc
    decide
  · rw [natChars, if_neg h, natCharsRev_digits n n le_rfl] at hc
    rw [List.mem_reverse, List.mem_map] at hc
    obtain ⟨d, hd, rfl⟩ := hc
    exact digitChar_isDigit d (Nat.digits_lt_base (by norm_num) hd)

theorem natChars_ne_nil (n : Nat) : natChars n ≠ [] := by
  by_cases h : n = 0
  · subst h; simp [natChars]
  · rw [natChars, if_neg h, natCharsRev_digits n n le_rfl]
    simp [Nat.digits_ne_nil_iff_ne_zero, h]

theorem foldl_digits : ∀ (L : List Nat) (a : Nat),
    (L.reverse).foldl (fun x d => 10 * x + d) a = a * 10 ^ L.length + Nat.ofDigits 10 L
  | [], a => by simp [Nat.ofDigits_nil]
  | d :: L, a => by
    rw [List.reverse_cons, List.foldl_append, foldl_digits L a, Nat.ofDigits_cons]
    simp [pow_succ]
    ring

theorem natChars_foldl (n : Nat) :
    (natChars n).foldl (fun a c => 10 * a + (c.toNat - 48)) 0 = n := by
  by_cases h : n = 0
  · subst h; simp [natChars]
  · rw [natChars, if_neg h, natCharsRev_digits n n le_rfl, ← List.map_reverse,
      List.foldl_map]
    have hcong : ((Nat.digits 10 n).reverse).foldl
        (fun a d => 10 * a + ((digitChar d).toNat - 48)) 0
        = ((Nat.digits 10 n).reverse).foldl (fun a d => 10 * a + d) 0 := by
      apply List.foldl_ext
      intro a d hd
      rw [List.mem_reverse] at hd
      rw [digitChar_toNat d (Nat.digits_lt_base (by norm_num) hd)]
      omega
    rw [hcong, foldl_digits, Nat.ofDigits_digits]
    omega

theorem parseNatPart_round (n : Nat) (rest : List Char) (hsafe : numSafe rest) :
    parseNatPart (natChars n ++ rest) = some (n, rest) := by
  have hr : headNotP isDigitC rest := by
    cases rest with
    | nil => trivial
    | cons c t => exact hsafe.1
  have htake := takeWhile_all_append isDigitC (natChars n) rest (natChars_all_digits n) hr
  rw [parseNatPart.eq_def]
  simp only [htake.1, htake.2]
  rw [if_neg (natChars_ne_nil n)]
  have hdot : ¬ (rest.head? = some '.' || rest.head? = some 'e' || rest.head? = some 'E') = true := by
    match rest with
    | [] => simp
    | c :: t =>
      simp only [List.head?_cons, Bool.or_eq_true, decide_eq_true_eq, Option.some.injEq]
      push_neg
      exact ⟨⟨hsafe.2.1, hsafe.2.2.1⟩, hsafe.2.2.2⟩
  rw [if_neg hdot, natChars_foldl]

theorem parseNum_round (n : Int) (rest : List Char) (hsafe : numSafe rest) :
    parseNum (intChars n ++ rest) = some (Json.num n, rest) := by
  by_cases hn : n < 0
  · rw [intChars, if_pos hn]
    rw [parseNum.eq_def]
    simp only [List.cons_append, List.head?_cons, List.tail_cons, if_pos rfl]
    rw [parseNatPart_round n.natAbs rest hsafe]
    simp only [Option.map_some']
    rw [show -((n.natAbs : Nat) : Int) = n by omega]
    simp
  · rw [intChars, if_neg hn]
    obtain ⟨c, t, hct⟩ := List.exists_cons_of_ne_nil (natChars_ne_nil n.toNat)
    have hcd : isDigitC c = true := natChars_all_digits n.toNat c (by rw [hct]; simp)
    have hcm : ¬ c = '-' := by
      intro h
      subst h
      simp [isDigitC] at hcd
    rw [parseNum.eq_def]
    have hhead : (natChars n.toNat ++ rest).head? = some c := by rw [hct]; simp
    rw [hhead]
    rw [if_neg (by simp [hcm])]
    rw [parseNatPart_round n.toNat rest hsafe]
    simp only [Option.map_some']
    rw [show ((n.toNat : Nat) : Int) = n by omega]

theorem isWsC_digit_false {c : Char} (h : isDigitC c = true) : isWsC c = false := by
  simp only [isDigitC, Bool.and_eq_true, decide_eq_true_eq] at h
  simp only [isWsC, Bool.or_eq_false_iff, beq_eq_false_iff_ne]
  omega

theorem digit_ne {c : Char} (h : isDigitC c = true) (d : Char)
    (hd : isDigitC d = false) : c ≠ d := by
  intro he
  subst he
  rw [h] at hd
  cases hd

theorem renderChars_cons (v : Json) :
    ∃ c t, renderChars v = c :: t ∧ isWsC c = false ∧ c ≠ ']' ∧ c ≠ '}' := by
  match v with
  | .null => exact ⟨'n', _, rfl, by decide, by decide, by decide⟩
  | .bool true => exact ⟨'t', _, rfl, by decide, by decide, by decide⟩
  | .bool false => exact ⟨'f', _, rfl, by decide, by decide, by decide⟩
  | .num n =>
    show ∃ c t, intChars n = c :: t ∧ _
    rw [intChars]
    by_cases hn : n < 0
    · rw [if_pos hn]
      exact ⟨'-', _, rfl, by decide, by decide, by decide⟩
    · rw [if_neg hn]
      obtain ⟨c, t, hct⟩ := List.exists_cons_of_ne_nil (natChars_ne_nil n.toNat)
      have hcd : isDigitC c = true := natChars_all_digits n.toNat c (by rw [hct]; simp)
      exact ⟨c, t, hct, isWsC_digit_false hcd, digit_ne hcd ']' (by decide),
        digit_ne hcd '}' (by decide)⟩
  | .str s => exact ⟨'"', _, rfl, by decide, by decide, by decide⟩
  | .arr [] => exact ⟨'[', _, rfl, by decide, by decide, by decide⟩
  | .arr (x :: xs) => exact ⟨'[', _, rfl, by decide, by decide, by decide⟩
  | .obj [] => exact ⟨'{', _, rfl, by decide, by decide, by decide⟩
  | .obj ((k, v0) :: kvs) => exact ⟨'{', _, rfl, by decide, by decide, by decide⟩

theorem renderChars_length_pos (v : Json) : 1 ≤ (renderChars v).length := by
  obtain ⟨c, t, hct, _⟩ := renderChars_cons v
  rw [hct]
  simp

theorem skipWs_render (v : Json) (rest : List Char) :
    skipWs (renderChars v ++ rest) = renderChars v ++ rest := by
  obtain ⟨c, t, hct, hws, _⟩ := renderChars_cons v
  rw [hct, List.cons_append, skipWs_cons_not _ hws]

theorem numSafe_arrRest (l : List Json) (rest : List Char) :
    numSafe (renderArrRest l ++ rest) := by
  cases l with
  | nil => exact ⟨by decide, by decide, by decide, by decide⟩
  | cons y l => exact ⟨by decide, by decide, by decide, by decide⟩

theorem numSafe_objRest (l : List (String × Json)) (rest : List Char) :
    numSafe (renderObjRest l ++ rest) := by
  cases l with
  | nil => exact ⟨by decide, by decide, by decide, by decide⟩
  | cons kv l =>
    obtain ⟨k, v⟩ := kv
    exact ⟨by decide, by decide, by decide, by decide⟩

theorem digitC_cases (c : Char) (h : isDigitC c = true) :
    c = '0' ∨ c = '1' ∨ c = '2' ∨ c = '3' ∨ c = '4' ∨
    c = '5' ∨ c = '6' ∨ c = '7' ∨ c = '8' ∨ c = '9' := by
  have hn : 48 ≤ c.toNat ∧ c.toNat ≤ 57 := by
    simpa [isDigitC] using h
  have h10 : c.toNat = 48 ∨ c.toNat = 49 ∨ c.toNat = 50 ∨ c.toNat = 51 ∨ c.toNat = 52 ∨
      c.toNat = 53 ∨ c.toNat = 54 ∨ c.toNat = 55 ∨ c.toNat = 56 ∨ c.toNat = 57 := by omega
  rcases h10 with h'|h'|h'|h'|h'|h'|h'|h'|h'|h' <;>
    rw [← Char.ofNat_toNat c, h'] <;> decide

theorem string_mk_data (s : String) : String.mk s.data = s := by
  cases s
  rfl

theorem intChars_head (n : Int) :
    ∃ c t, intChars n = c :: t ∧ (c = '-' ∨ isDigitC c = true) := by
  rw [intChars]
  by_cases hn : n < 0
  · rw [if_pos hn]
    exact ⟨'-', _, rfl, Or.inl rfl⟩
  · rw [if_neg hn]
    obtain ⟨c, t, hct⟩ := List.exists_cons_of_ne_nil (natChars_ne_nil n.toNat)
    exact ⟨c, t, hct, Or.inr (natChars_all_digits n.toNat c (by rw [hct]; simp))⟩

theorem parseVal_render_num (n : Int) (rest cs : List Char) (f : Nat)
    (h : skipWs cs = intChars n ++ rest) (hsafe : numSafe rest) :
    parseVal (f + 1) cs = some (Json.num n, rest) := by
  obtain ⟨c, t, hct, hcd⟩ := intChars_head n
  have hnum : parseNum (intChars n ++ rest) = some (Json.num n, rest) :=
    parseNum_round n rest hsafe
  have hc11 : c = '-' ∨ c = '0' ∨ c = '1' ∨ c = '2' ∨ c = '3' ∨ c = '4' ∨
      c = '5' ∨ c = '6' ∨ c = '7' ∨ c = '8' ∨ c = '9' := by
    rcases hcd with h' | h'
    · exact Or.inl h'
    · exact Or.inr (digitC_cases c h')
  unfold parseVal
  rw [h, hct, List.cons_append]
  rw [hct, List.cons_append] at hnum
  rcases hc11 with h'|h'|h'|h'|h'|h'|h'|h'|h'|h'|h' <;> subst h' <;> simpa using hnum

/-- A value is read back exactly from the input positions where the renderer
wrote it: whenever the whitespace-stripped input is its rendering followed by
a safe remainder and the fuel covers the rendering, `parseVal` returns the
value and the remainder. -/
def ParsesBack (v : Json) : Prop :=
  ∀ (cs rest : List Char) (fuel : Nat), skipWs cs = renderChars v ++ rest →
    numSafe rest → (renderChars v).length ≤ fuel →
    parseVal fuel cs = some (v, rest)

theorem renderArrRest_length_pos (l : List Json) : 1 ≤ (renderArrRest l).length := by
  cases l <;> simp [renderArrRest]

theorem renderObjRest_length_pos (l : List (String × Json)) :
    1 ≤ (renderObjRest l).length := by
  cases l with
  | nil => simp [renderObjRest]
  | cons kv l => obtain ⟨k, v⟩ := kv; simp [renderObjRest]

theorem parseElems_round : ∀ (l : List Json) (x : Json), ParsesBack x →
    (∀ y ∈ l, ParsesBack y) → ∀ (cs rest : List Char) (f : Nat),
    skipWs cs = renderChars x ++ (renderArrRest l ++ rest) →
    (renderChars x).length + (renderArrRest l).length ≤ f →
    parseElems f cs = some (x :: l, rest)
  | [], x => by
    intro hx _ cs rest f h hf
    have hx1 := renderChars_length_pos x
    match f, hf with
    | f1 + 1, hf =>
      unfold parseElems
      rw [hx cs (renderArrRest [] ++ rest) f1 h (numSafe_arrRest [] rest) (by
        have : (renderArrRest ([] : List Json)).length = 1 := by simp [renderArrRest]
        omega)]
      show (match skipWs (']' :: rest) with
        | ',' :: r1 =>
          match parseElems f1 r1 with
          | some (xs, rr) => some (x :: xs, rr)
          | none => none
        | ']' :: r1 => some ([x], r1)
        | _ => none) = some ([x], rest)
      rw [skipWs_cons_not _ (by decide)]
      simp
  | y :: l, x => by
    intro hx hl cs rest f h hf
    have hx1 := renderChars_length_pos x
    have hy1 := renderChars_length_pos y
    have hlen : (renderArrRest (y :: l)).length
        = 2 + (renderChars y).length + (renderArrRest l).length := by
      show (',' :: ' ' :: (renderChars y ++ renderArrRest l)).length = _
      simp
      omega
    match f, hf with
    | f1 + 1, hf =>
      unfold parseElems
      rw [hx cs (renderArrRest (y :: l) ++ rest) f1 h (numSafe_arrRest _ rest) (by omega)]
      show (match skipWs (renderArrRest (y :: l) ++ rest) with
        | ',' :: r1 =>
          match parseElems f1 r1 with
          | some (xs, rr) => some (x :: xs, rr)
          | none => none
        | ']' :: r1 => some ([x], r1)
        | _ => none) = some (x :: y :: l, rest)
      have hshape : renderArrRest (y :: l) ++ rest
          = ',' :: ' ' :: (renderChars y ++ (renderArrRest l ++ rest)) := by
        show (',' :: ' ' :: (renderChars y ++ renderArrRest l)) ++ rest = _
        simp
      rw [hshape, skipWs_cons_not _ (by decide)]
      have hrec := parseElems_round l y (hl y (by simp))
        (fun z hz => hl z (by simp [hz])) (' ' :: (renderChars y ++ (renderArrRest l ++ rest)))
        rest f1 (by
          show skipWs (' ' :: (renderChars y ++ (renderArrRest l ++ rest)))
            = renderChars y ++ (renderArrRest l ++ rest)
          rw [show skipWs (' ' :: (renderChars y ++ (renderArrRest l ++ rest)))
            = skipWs (renderChars y ++ (renderArrRest l ++ rest)) from by simp [skipWs, isWsC],
            skipWs_render])
        (by omega)
      simp [hrec]

theorem renderStr_length_pos (k : String) : 1 ≤ (renderStr k).length := by
  simp [renderStr]

theorem parseMembers_head (k : String) (v : Json) (l : List (String × Json))
    (cs rest : List Char) (f1 : Nat) (hv : ParsesBack v)
    (h : skipWs cs = renderStr k ++ (':' :: ' ' :: (renderChars v ++ (renderObjRest l ++ rest))))
    (hfv : (renderChars v).length ≤ f1) :
    parseMembers (f1 + 1) cs = (match skipWs (renderObjRest l ++ rest) with
      | ',' :: r4 =>
        match parseMembers f1 r4 with
        | some (kvs, rr) => some ((k, v) :: kvs, rr)
        | none => none
      | '}' :: r4 => some ([(k, v)], r4)
      | _ => none) := by
  have h' : skipWs cs = '"' :: (escapeChars k.data ++
      ('"' :: (':' :: ' ' :: (renderChars v ++ (renderObjRest l ++ rest))))) := by
    rw [h]
    show renderStr k ++ _ = _
    simp [renderStr]
  unfold parseMembers
  rw [h']
  show (match parseStrChars (escapeChars k.data ++
      ('"' :: (':' :: ' ' :: (renderChars v ++ (renderObjRest l ++ rest))))) with
    | none => none
    | some (k1, r1) =>
      match skipWs r1 with
      | ':' :: r2 =>
        match parseVal f1 r2 with
        | none => none
        | some (v1, r3) =>
          match skipWs r3 with
          | ',' :: r4 =>
            match parseMembers f1 r4 with
            | some (kvs, rr) => some ((String.mk k1, v1) :: kvs, rr)
            | none => none
          | '}' :: r4 => some ([(String.mk k1, v1)], r4)
          | _ => none
      | _ => none) = _
  rw [parseStr_round]
  show (match skipWs (':' :: ' ' :: (renderChars v ++ (renderObjRest l ++ rest))) with
    | ':' :: r2 =>
      match parseVal f1 r2 with
      | none => none
      | some (v1, r3) =>
        match skipWs r3 with
        | ',' :: r4 =>
          match parseMembers f1 r4 with
          | some (kvs, rr) => some ((String.mk k.data, v1) :: kvs, rr)
          | none => none
        | '}' :: r4 => some ([(String.mk k.data, v1)], r4)
        | _ => none
    | _ => none) = _
  rw [skipWs_cons_not _ (by decide)]
  have hpv : parseVal f1 (' ' :: (renderChars v ++ (renderObjRest l ++ rest)))
      = some (v, renderObjRest l ++ rest) := by
    apply hv _ _ f1 ?_ (numSafe_objRest l rest) hfv
    show skipWs (' ' :: (renderChars v ++ (renderObjRest l ++ rest))) = _
    rw [show skipWs (' ' :: (renderChars v ++ (renderObjRest l ++ rest)))
      = skipWs (renderChars v ++ (renderObjRest l ++ rest)) from by simp [skipWs, isWsC],
      skipWs_render]
  show (match parseVal f1 (' ' :: (renderChars v ++ (renderObjRest l ++ rest))) with
    | none => none
    | some (v1, r3) =>
      match skipWs r3 with
      | ',' :: r4 =>
        match parseMembers f1 r4 with
        | some (kvs, rr) => some ((String.mk k.data, v1) :: kvs, rr)
        | none => none
      | '}' :: r4 => some ([(String.mk k.data, v1)], r4)
      | _ => none) = _
  rw [hpv]
  show (match skipWs (renderObjRest l ++ rest) with
    | ',' :: r4 =>
      match parseMembers f1 r4 with
      | some (kvs, rr) => some ((String.mk k.data, v) :: kvs, rr)
      | none => none
    | '}' :: r4 => some ([(String.mk k.data, v)], r4)
    | _ => none) = _
  rw [string_mk_data]
  simp only [← parseMembers.eq_def]

theorem parseMembers_round : ∀ (l : List (String × Json)) (k : String) (v : Json),
    ParsesBack v → (∀ kv ∈ l, ParsesBack kv.2) → ∀ (cs rest : List Char) (f : Nat),
    skipWs cs = renderStr k ++ (':' :: ' ' :: (renderChars v ++ (renderObjRest l ++ rest))) →
    (renderStr k).length + (renderChars v).length + (renderObjRest l).length + 2 ≤ f →
    parseMembers f cs = some ((k, v) :: l, rest)
  | [], k, v => by
    intro hv _ cs rest f h hf
    have hv1 := renderChars_length_pos v
    have hk1 := renderStr_length_pos k
    match f, hf with
    | f1 + 1, hf =>
      rw [parseMembers_head k v [] cs rest f1 hv h (by omega)]
      show (match skipWs ('}' :: rest) with
        | ',' :: r4 =>
          match parseMembers f1 r4 with
          | some (kvs, rr) => some ((k, v) :: kvs, rr)
          | none => none
        | '}' :: r4 => some ([(k, v)], r4)
        | _ => none) = some ([(k, v)], rest)
      rw [skipWs_cons_not _ (by decide)]
      simp
  | (k2, v2) :: l2, k, v => by
    intro hv hl cs rest f h hf
    have hv1 := renderChars_length_pos v
    have hk1 := renderStr_length_pos k
    have hk2 := renderStr_length_pos k2
    have hv2 := renderChars_length_pos v2
    have hlen2 : (renderObjRest ((k2, v2) :: l2)).length
        = 4 + (renderStr k2).length + (renderChars v2).length
          + (renderObjRest l2).length := by
      show (',' :: ' ' :: (renderStr k2 ++ ':' :: ' ' ::
        (renderChars v2 ++ renderObjRest l2))).length = _
      simp
      omega
    match f, hf with
    | f1 + 1, hf =>
      rw [parseMembers_head k v ((k2, v2) :: l2) cs rest f1 hv h (by omega)]
      have hshape : renderObjRest ((k2, v2) :: l2) ++ rest
          = ',' :: ' ' :: (renderStr k2 ++
            (':' :: ' ' :: (renderChars v2 ++ (renderObjRest l2 ++ rest)))) := by
        show (',' :: ' ' :: (renderStr k2 ++ ':' :: ' ' ::
          (renderChars v2 ++ renderObjRest l2))) ++ rest = _
        simp
      rw [hshape, skipWs_cons_not _ (by decide)]
      have hrec := parseMembers_round l2 k2 v2 (hl (k2, v2) (by simp))
        (fun kv hkv => hl kv (by simp [hkv]))
        (' ' :: (renderStr k2 ++ (':' :: ' ' ::
          (renderChars v2 ++ (renderObjRest l2 ++ rest))))) rest f1
        (by
          show skipWs (' ' :: (renderStr k2 ++ (':' :: ' ' ::
            (renderChars v2 ++ (renderObjRest l2 ++ rest))))) = _
          rw [show skipWs (' ' :: (renderStr k2 ++ (':' :: ' ' ::
              (renderChars v2 ++ (renderObjRest l2 ++ rest)))))
            = skipWs (renderStr k2 ++ (':' :: ' ' ::
              (renderChars v2 ++ (renderObjRest l2 ++ rest)))) from by simp [skipWs, isWsC]]
          rw [show renderStr k2 ++ (':' :: ' ' ::
              (renderChars v2 ++ (renderObjRest l2 ++ rest)))
            = '"' :: (escapeChars k2.data ++ ('"' :: (':' :: ' ' ::
              (renderChars v2 ++ (renderObjRest l2 ++ rest))))) from by simp [renderStr]]
          rw [skipWs_cons_not _ (by decide)])
        (by omega)
      simp [hrec]

theorem parsesBack_all : ∀ (v : Json), ParsesBack v
  | .null => by
    intro cs rest fuel h hsafe hfuel
    have h4 : (renderChars Json.null).length = 4 := rfl
    match fuel, hfuel with
    | 0, hfuel => omega
    | f + 1, _ =>
      unfold parseVal
      rw [h]
      simp [renderChars]
  | .bool true => by
    intro cs rest fuel h hsafe hfuel
    have h4 : (renderChars (Json.bool true)).length = 4 := rfl
    match fuel, hfuel with
    | 0, hfuel => omega
    | f + 1, _ =>
      unfold parseVal
      rw [h]
      simp [renderChars]
  | .bool false => by
    intro cs rest fuel h hsafe hfuel
    have h5 : (renderChars (Json.bool false)).length = 5 := rfl
    match fuel, hfuel with
    | 0, hfuel => omega
    | f + 1, _ =>
      unfold parseVal
      rw [h]
      simp [renderChars]
  | .num n => by
    intro cs rest fuel h hsafe hfuel
    have h1 := renderChars_length_pos (Json.num n)
    match fuel, hfuel with
    | 0, hfuel => omega
    | f + 1, _ => exact parseVal_render_num n rest cs f h hsafe
  | .str s => by
    intro cs rest fuel h hsafe hfuel
    have h1 := renderChars_length_pos (Json.str s)
    match fuel, hfuel with
    | 0, hfuel => omega
    | f + 1, _ =>
      unfold parseVal
      rw [h]
      rw [show renderChars (Json.str s) ++ rest
        = '"' :: (escapeChars s.data ++ ('"' :: rest)) from by simp [renderChars, renderStr]]
      show (parseStrChars (escapeChars s.data ++ ('"' :: rest))).map
        (fun p => (Json.str (String.mk p.1), p.2)) = some (Json.str s, rest)
      rw [parseStr_round]
      simp [string_mk_data]
  | .arr [] => by
    intro cs rest fuel h hsafe hfuel
    have h1 := renderChars_length_pos (Json.arr [])
    match fuel, hfuel with
    | 0, hfuel => omega
    | f + 1, _ =>
      unfold parseVal
      rw [h]
      rw [show renderChars (Json.arr []) ++ rest = '[' :: (']' :: rest) from by
        simp [renderChars]]
      simp [skipWs, isWsC]
  | .arr (x :: xs) => by
    intro cs rest fuel h hsafe hfuel
    have hx1 := renderChars_length_pos x
    have hlen : (renderChars (Json.arr (x :: xs))).length
        = 1 + (renderChars x).length + (renderArrRest xs).length := by
      show ('[' :: (renderChars x ++ renderArrRest xs)).length = _
      simp only [List.length_cons, List.length_append]
      omega
    match fuel, hfuel with
    | 0, hfuel => omega
    | f + 1, hfuel =>
      unfold parseVal
      rw [h]
      rw [show renderChars (Json.arr (x :: xs)) ++ rest
        = '[' :: (renderChars x ++ (renderArrRest xs ++ rest)) from by simp [renderChars]]
      show (if (skipWs (renderChars x ++ (renderArrRest xs ++ rest))).head? = some ']'
        then some (Json.arr [], (skipWs (renderChars x ++ (renderArrRest xs ++ rest))).tail)
        else (parseElems f (skipWs (renderChars x ++ (renderArrRest xs ++ rest)))).map
          fun p => (Json.arr p.1, p.2)) = some (Json.arr (x :: xs), rest)
      rw [skipWs_render]
      obtain ⟨c, t, hct, hws, hbr, hbr2⟩ := renderChars_cons x
      rw [if_neg (by
        rw [hct, List.cons_append, List.head?_cons]
        simp [hbr])]
      rw [parseElems_round xs x (parsesBack_all x) (fun y hy => parsesBack_all y)
        _ rest f (skipWs_render x (renderArrRest xs ++ rest)) (by omega)]
      rfl
  | .obj [] => by
    intro cs rest fuel h hsafe hfuel
    have h1 := renderChars_length_pos (Json.obj [])
    match fuel, hfuel with
    | 0, hfuel => omega
    | f + 1, _ =>
      unfold parseVal
      rw [h]
      rw [show renderChars (Json.obj []) ++ rest = '{' :: ('}' :: rest) from by
        simp [renderChars]]
      simp [skipWs, isWsC]
  | .obj ((k, v0) :: kvs) => by
    intro cs rest fuel h hsafe hfuel
    have hk1 := renderStr_length_pos k
    have hv1 := renderChars_length_pos v0
    have hlen : (renderChars (Json.obj ((k, v0) :: kvs))).length
        = 3 + (renderStr k).length + (renderChars v0).length + (renderObjRest kvs).length := by
      show ('{' :: (renderStr k ++ ':' :: ' ' :: (renderChars v0 ++ renderObjRest kvs))).length = _
      simp only [List.length_cons, List.length_append]
      omega
    match fuel, hfuel with
    | 0, hfuel => omega
    | f + 1, hfuel =>
      unfold parseVal
      rw [h]
      rw [show renderChars (Json.obj ((k, v0) :: kvs)) ++ rest
        = '{' :: (renderStr k ++ (':' :: ' ' :: (renderChars v0 ++ (renderObjRest kvs ++ rest))))
        from by simp [renderChars]]
      show (if (skipWs (renderStr k ++ (':' :: ' ' ::
          (renderChars v0 ++ (renderObjRest kvs ++ rest))))).head? = some '}'
        then some (Json.obj [], (skipWs (renderStr k ++ (':' :: ' ' ::
          (renderChars v0 ++ (renderObjRest kvs ++ rest))))).tail)
        else (parseMembers f (skipWs (renderStr k ++ (':' :: ' ' ::
          (renderChars v0 ++ (renderObjRest kvs ++ rest)))))).map
          fun p => (Json.obj p.1, p.2)) = some (Json.obj ((k, v0) :: kvs), rest)
      have hX : renderStr k ++ (':' :: ' ' :: (renderChars v0 ++ (renderObjRest kvs ++ rest)))
          = '"' :: (escapeChars k.data ++ ('"' :: (':' :: ' ' ::
            (renderChars v0 ++ (renderObjRest kvs ++ rest))))) := by
        simp [renderStr]
      have hskipX : skipWs (renderStr k ++ (':' :: ' ' ::
          (renderChars v0 ++ (renderObjRest kvs ++ rest))))
          = renderStr k ++ (':' :: ' ' :: (renderChars v0 ++ (renderObjRest kvs ++ rest))) := by
        rw [hX, skipWs_cons_not _ (by decide)]
      rw [hskipX]
      rw [if_neg (by
        rw [hX, List.head?_cons]
        simp)]
      rw [parseMembers_round kvs k v0 (parsesBack_all v0) (fun kv hkv => parsesBack_all kv.2)
        _ rest f hskipX (by omega)]
      rfl
termination_by v => sizeOf v
decreasing_by
  · simp_wf
    omega
  · simp_wf
    have hmem := List.sizeOf_lt_of_mem hy
    omega
  · simp_wf
    omega
  · simp_wf
    have hmem := List.sizeOf_lt_of_mem hkv
    obtain ⟨a, b⟩ := kv
    simp at hmem ⊢
    omega

/-- Round trip of the serializer model: `json.loads` applied to
`json.dumps(value, ensure_ascii=False)` returns the value itself. -/
theorem jsonLoads_dumps (v : Json) : jsonLoads (jsonDumps v) = some v := by
  have hskip : skipWs (renderChars v) = renderChars v ++ [] := by
    rw [List.append_nil]
    have h := skipWs_render v []
    rwa [List.append_nil] at h
  have h := parsesBack_all v (renderChars v) [] ((renderChars v).length + 1)
    hskip trivial (by omega)
  show (match parseVal ((String.mk (renderChars v)).length + 1)
      (String.mk (renderChars v)).data with
    | some (v1, rest) => if skipWs rest = [] then some v1 else none
    | none => none) = some v
  rw [show (String.mk (renderChars v)).data = renderChars v from rfl,
    show (String.mk (renderChars v)).length = (renderChars v).length from rfl, h]
  simp [skipWs]

/-! ## Claim-level helpers -/

/-- Whether a query resolution ended with an exception propagating out of
`process_query`. -/
def queryRaised : Option QueryResult → Bool
  | some (.raised _ _) => true
  | _ => false

/-- Content string of the `role: tool` message the loop folds for one call
(the empty string stands in for the raising cases, which the theorems using
this definition exclude by hypothesis). -/
def resultContent (conn : Option MCPConnector) (remote : RemoteBehavior)
    (tc : ToolCall) : String :=
  match normalizeArgs tc.function.arguments with
  | .error _ => ""
  | .ok args =>
    match call_tool conn remote tc.function.name args with
    | .error _ => ""
    | .ok tr => normContent tr.content

theorem call_tool_ok (c : MCPConnector) (s : Unit) (hs : c.session = some s)
    (remote : RemoteBehavior) (tool_name : String) (args : Json) :
    ∃ r, call_tool (some c) remote tool_name args = .ok r := by
  cases hr : remote tool_name args with
  | ok r => exact ⟨r, by simp [call_tool, hs, hr]⟩
  | raises e => exact ⟨⟨.str ("[工具调用异常] " ++ e), none⟩, by simp [call_tool, hs, hr]⟩

theorem processToolCalls_ok (c : MCPConnector) (s : Unit) (hs : c.session = some s)
    (remote : RemoteBehavior) : ∀ (tcs : List ToolCall) (ms : List Turn),
    (∀ tc ∈ tcs, ∃ a, normalizeArgs tc.function.arguments = .ok a) →
    processToolCalls (some c) remote ms tcs
      = (ms ++ tcs.map (fun tc => Turn.tool tc.id (resultContent (some c) remote tc)), none)
  | [], ms => by
    intro _
    simp [processToolCalls]
  | tc :: tcs, ms => by
    intro hok
    obtain ⟨a, ha⟩ := hok tc (by simp)
    obtain ⟨r, hr⟩ := call_tool_ok c s hs remote tc.function.name a
    have hcontent : resultContent (some c) remote tc = normContent r.content := by
      simp [resultContent, ha, hr]
    have ih := processToolCalls_ok c s hs remote tcs
      (ms ++ [Turn.tool tc.id (normContent r.content)])
      (fun tc2 h2 => hok tc2 (by simp [h2]))
    simp only [processToolCalls, ha, hr, ih, hcontent]
    simp [hcontent]

/-! ## Claims -/

/-- Claim C1, counterexample: the claim states that an exception raised while
normalizing a tool call's arguments is caught per call and folded as a
textual ToolResult, never propagating out of query resolution.  At this
concrete input — one tool call whose string-form arguments `"oops"` are not
valid JSON — the parse exception propagates out of `processQuery` as a
raised error, with no ToolResultTurn folded, so the claim is false. -/
theorem C1_counterexample :
    processQuery (some ⟨some (), []⟩) (fun _ _ => .ok ⟨.str "ok", some false⟩)
      (fun _ _ => .returns ⟨none, [⟨"id1", ⟨"get_weather", ArgVal.str "oops"⟩⟩]⟩) 3 "hi"
      = some (.raised (.jsonDecodeError "oops")
          [Turn.user "hi", Turn.assistant none [⟨"id1", ⟨"get_weather", ArgVal.str "oops"⟩⟩]])
    ∧ queryRaised (processQuery (some ⟨some (), []⟩) (fun _ _ => .ok ⟨.str "ok", some false⟩)
      (fun _ _ => .returns ⟨none, [⟨"id1", ⟨"get_weather", ArgVal.str "oops"⟩⟩]⟩) 3 "hi")
      = true :=
  ⟨rfl, rfl⟩

/-- Claim C1 (amended): an exception raised while normalizing a tool call's
arguments — parsing a malformed string-form argument — is NOT caught at the
per-tool-call granularity: it aborts the tool-call loop without folding a
ToolResult for that call and propagates out of the query-resolution
operation (where the interactive front end catches it, see C5).  Stated for
a first model response whose first tool call fails to normalize. -/
theorem C1_normalization_fault_propagates (c : MCPConnector) (remote : RemoteBehavior)
    (model : ModelBehavior) (fuel : Nat) (q : String) (resp : ModelResponse)
    (tc : ToolCall) (rest : List ToolCall) (err : PyError)
    (hm : model [Turn.user q] (c.tools.map fun t =>
      ⟨"function", ⟨t.name, t.description, t.inputSchema⟩⟩) = .returns resp)
    (ht : resp.tool_calls = tc :: rest)
    (hn : normalizeArgs tc.function.arguments = .error err) :
    processQuery (some c) remote model (fuel + 1) q
      = some (.raised err [Turn.user q, Turn.assistant resp.content resp.tool_calls]) := by
  simp only [processQuery, build_tools_for_deepseek, processQueryLoop]
  rw [hm]
  simp only [handleResponse, ht, processToolCalls, hn]
  simp [ht]

/-- Claim C1 witness: the amended statement applied at a concrete run. -/
theorem C1_witness :
    processQuery (some ⟨some (), []⟩) (fun _ _ => .ok ⟨.str "ok", some false⟩)
      (fun _ _ => .returns ⟨none, [⟨"id9", ⟨"t", ArgVal.str "x"⟩⟩]⟩) 4 "q"
      = some (.raised (.jsonDecodeError "x")
          [Turn.user "q", Turn.assistant none [⟨"id9", ⟨"t", ArgVal.str "x"⟩⟩]]) :=
  C1_normalization_fault_propagates ⟨some (), []⟩ (fun _ _ => .ok ⟨.str "ok", some false⟩)
    (fun _ _ => .returns ⟨none, [⟨"id9", ⟨"t", ArgVal.str "x"⟩⟩]⟩) 3 "q"
    ⟨none, [⟨"id9", ⟨"t", ArgVal.str "x"⟩⟩]⟩ ⟨"id9", ⟨"t", ArgVal.str "x"⟩⟩ [] 
    (.jsonDecodeError "x") rfl rfl rfl

/-- Claim C2, counterexample: the claim states that a fault of the remote
call is converted into a ToolResult whose `is_error` field is true.  The
ad-hoc result object built on line 51 carries only `content` — modelled as
`isError = none` — so at this concrete faulting call the returned result
does not have `is_error` true, and the claim is false. -/
theorem C2_counterexample :
    call_tool (some ⟨some (), []⟩) (fun _ _ => .raises "boom") "t" (Json.obj [])
      = .ok ⟨.str ("[工具调用异常] " ++ "boom"), none⟩
    ∧ (ToolResult.isError ⟨.str ("[工具调用异常] " ++ "boom"), none⟩ ≠ some true) :=
  ⟨rfl, by simp⟩

/-- Claim C2 (amended): with the connection established, `call_tool` never
raises when the remote call faults: the exception is caught and converted
into a result object whose content is a non-empty failure description
string — but the object carries no `is_error` field (`isError = none`) —
and the loop folds that string as the ToolResultTurn and continues, so
query resolution proceeds to the next model turn. -/
theorem C2_fault_shim (c : MCPConnector) (s : Unit) (hs : c.session = some s)
    (remote : RemoteBehavior) (tc : ToolCall) (args : Json) (e : String)
    (ms : List Turn)
    (hn : normalizeArgs tc.function.arguments = .ok args)
    (hr : remote tc.function.name args = .raises e) :
    call_tool (some c) remote tc.function.name args
        = .ok ⟨.str ("[工具调用异常] " ++ e), none⟩
    ∧ 0 < ("[工具调用异常] " ++ e).length
    ∧ processToolCalls (some c) remote ms [tc]
        = (ms ++ [Turn.tool tc.id ("[工具调用异常] " ++ e)], none) := by
  refine ⟨by simp [call_tool, hs, hr], ?_, ?_⟩
  · have hlen : ("[工具调用异常] " ++ e).length = "[工具调用异常] ".length + e.length :=
      String.length_append _ _
    have h9 : "[工具调用异常] ".length = 9 := rfl
    omega
  · simp [processToolCalls, hn, call_tool, hs, hr, normContent]

/-- Claim C2 witness: the amended statement applied at a concrete faulting
invocation. -/
theorem C2_witness :
    call_tool (some ⟨some (), []⟩) (fun _ _ => .raises "boom") "t" (Json.obj [])
        = .ok ⟨.str ("[工具调用异常] " ++ "boom"), none⟩
    ∧ 0 < ("[工具调用异常] " ++ "boom").length
    ∧ processToolCalls (some ⟨some (), []⟩) (fun _ _ => .raises "boom") []
        [⟨"id1", ⟨"t", ArgVal.structured (Json.obj [])⟩⟩]
        = ([Turn.tool "id1" ("[工具调用异常] " ++ "boom")], none) := by
  have h := C2_fault_shim ⟨some (), []⟩ () rfl (fun _ _ => .raises "boom")
    ⟨"id1", ⟨"t", ArgVal.structured (Json.obj [])⟩⟩ (Json.obj []) "boom" [] rfl rfl
  exact ⟨h.1, h.2.1, h.2.2⟩

/-- Claim C3, counterexample: the claim states that after a query whose
first model response has no tool calls, the conversation state holds
exactly one UserTurn and exactly one AssistantTurn.  At this concrete run
the final text is returned unchanged, but the assistant reply is never
appended to `messages` — the state holds one UserTurn and zero
AssistantTurns — so the claim is false. -/
theorem C3_counterexample :
    processQuery (some ⟨some (), []⟩) (fun _ _ => .ok ⟨.str "ok", some false⟩)
      (fun _ _ => .returns ⟨some "hello", []⟩) 3 "hi"
      = some (.ok "hello" [Turn.user "hi"])
    ∧ ¬ ([Turn.user "hi"].countP Turn.isAssistant = 1) :=
  ⟨rfl, by decide⟩

/-- Claim C3 (amended): for every query whose first model response contains
no tool calls, the orchestrator returns that response's text unchanged, and
the conversation state at the end of query resolution contains exactly one
UserTurn and no AssistantTurn (the final assistant reply is returned, not
appended to the state). -/
theorem C3_no_tool_calls (c : MCPConnector) (remote : RemoteBehavior)
    (model : ModelBehavior) (fuel : Nat) (q : String) (t : String)
    (hm : model [Turn.user q] (c.tools.map fun tl =>
      ⟨"function", ⟨tl.name, tl.description, tl.inputSchema⟩⟩) = .returns ⟨some t, []⟩) :
    processQuery (some c) remote model (fuel + 1) q = some (.ok t [Turn.user q])
    ∧ [Turn.user q].countP Turn.isUser = 1
    ∧ [Turn.user q].countP Turn.isAssistant = 0 := by
  refine ⟨?_, ?_, ?_⟩
  · simp only [processQuery, build_tools_for_deepseek, processQueryLoop]
    rw [hm]
    simp [handleResponse, renderFinal]
  · simp [List.countP_cons, Turn.isUser]
  · simp [List.countP_cons, Turn.isAssistant]

/-- Claim C3 witness: the amended statement applied at a concrete run. -/
theorem C3_witness :
    processQuery (some ⟨some (), []⟩) (fun _ _ => .ok ⟨.str "ok", some false⟩)
      (fun _ _ => .returns ⟨some "hey", []⟩) 2 "hello there"
      = some (.ok "hey" [Turn.user "hello there"])
    ∧ [Turn.user "hello there"].countP Turn.isUser = 1
    ∧ [Turn.user "hello there"].countP Turn.isAssistant = 0 :=
  C3_no_tool_calls ⟨some (), []⟩ (fun _ _ => .ok ⟨.str "ok", some false⟩)
    (fun _ _ => .returns ⟨some "hey", []⟩) 1 "hello there" "hey" rfl

/-- Claim C4, counterexample: the claim states that for every assistant turn
with N tool call requests exactly N ToolResultTurns are appended.  At this
concrete input — an established connection and one tool call whose
string-form arguments are malformed — zero ToolResultTurns are appended and
the normalization exception aborts the loop, so the claim is false. -/
theorem C4_counterexample :
    processToolCalls (some ⟨some (), []⟩) (fun _ _ => .ok ⟨.str "ok", some false⟩)
      [] [⟨"id1", ⟨"t", ArgVal.str "bad"⟩⟩]
      = ([], some (.jsonDecodeError "bad"))
    ∧ ¬ ((processToolCalls (some ⟨some (), []⟩) (fun _ _ => .ok ⟨.str "ok", some false⟩)
        [] [⟨"id1", ⟨"t", ArgVal.str "bad"⟩⟩]).1.countP Turn.isToolResult
      = ([⟨"id1", ⟨"t", ArgVal.str "bad"⟩⟩] : List ToolCall).length) :=
  ⟨rfl, by decide⟩

/-- Claim C4 (amended): with the connection established and every request's
arguments normalizing without error, handling an assistant response with
tool calls appends the AssistantTurn followed by exactly one ToolResultTurn
per request, in request order, each carrying the id of its request — hence
every ToolResultTurn references an id of the immediately preceding
AssistantTurn's tool_calls. -/
theorem C4_results_in_order (c : MCPConnector) (s : Unit) (hs : c.session = some s)
    (remote : RemoteBehavior) (ms : List Turn) (resp : ModelResponse)
    (hne : resp.tool_calls ≠ [])
    (hok : ∀ tc ∈ resp.tool_calls, ∃ a, normalizeArgs tc.function.arguments = .ok a) :
    handleResponse (some c) remote ms resp
      = .next ((ms ++ [Turn.assistant resp.content resp.tool_calls])
          ++ resp.tool_calls.map (fun tc => Turn.tool tc.id (resultContent (some c) remote tc)))
    ∧ (resp.tool_calls.map (fun tc =>
        Turn.tool tc.id (resultContent (some c) remote tc))).length
      = resp.tool_calls.length := by
  refine ⟨?_, by simp⟩
  match h : resp.tool_calls, hne with
  | tc :: tcs, _ =>
    simp only [handleResponse, h]
    rw [processToolCalls_ok c s hs remote (tc :: tcs)
      (ms ++ [Turn.assistant resp.content (tc :: tcs)]) (by rw [← h]; exact hok)]

/-- Concrete connector with an initialized session, for witnesses. -/
def connW : MCPConnector := ⟨some (), []⟩

/-- Concrete remote behaviour that returns a plain string result. -/
def remoteW : RemoteBehavior := fun _ _ => .ok ⟨.str "ok", some false⟩

/-- Concrete tool call with structured arguments, for witnesses. -/
def tcW1 : ToolCall := ⟨"i1", ⟨"t", ArgVal.structured (Json.obj [])⟩⟩

/-- Concrete tool call with string-form arguments, for witnesses. -/
def tcW2 : ToolCall := ⟨"i2", ⟨"u", ArgVal.str "7"⟩⟩

/-- Claim C4 witness: the amended statement applied at a concrete response
with two tool calls. -/
theorem C4_witness :
    handleResponse (some connW) remoteW [] ⟨some "x", [tcW1, tcW2]⟩
      = .next (([] ++ [Turn.assistant (some "x") [tcW1, tcW2]])
        ++ [tcW1, tcW2].map (fun tc => Turn.tool tc.id (resultContent (some connW) remoteW tc)))
    ∧ ([tcW1, tcW2].map (fun tc =>
        Turn.tool tc.id (resultContent (some connW) remoteW tc))).length
      = [tcW1, tcW2].length :=
  C4_results_in_order connW () rfl remoteW [] ⟨some "x", [tcW1, tcW2]⟩
    (by simp)
    (by
      intro tc htc
      simp at htc
      rcases htc with h | h <;> subst h
      · exact ⟨Json.obj [], rfl⟩
      · exact ⟨Json.num 7, rfl⟩)

/-- Claim C5: an exception raised by the chat model client itself
propagates out of `process_query` (it is not converted into a tool result),
is caught by the interactive front end which reports it, and the loop
continues accepting the next query rather than terminating. -/
theorem C5_model_fault_reported (c : MCPConnector) (remote : RemoteBehavior)
    (model : ModelBehavior) (fuel : Nat) (line : String) (e : String)
    (hq : pyLower (pyStrip line) ≠ "quit")
    (hm : model [Turn.user (pyStrip line)] (c.tools.map fun t =>
      ⟨"function", ⟨t.name, t.description, t.inputSchema⟩⟩) = .raises e) :
    processQuery (some c) remote model (fuel + 1) (pyStrip line)
      = some (.raised (.apiError e) [Turn.user (pyStrip line)])
    ∧ chatLoopStep line (fun q => processQuery (some c) remote model (fuel + 1) q)
      = some (.errorReported (.apiError e))
    ∧ loopContinues (.errorReported (.apiError e)) = true := by
  have h1 : processQuery (some c) remote model (fuel + 1) (pyStrip line)
      = some (.raised (.apiError e) [Turn.user (pyStrip line)]) := by
    simp only [processQuery, build_tools_for_deepseek, processQueryLoop]
    rw [hm]
  refine ⟨h1, ?_, rfl⟩
  simp [chatLoopStep, hq, h1]

/-- Claim C5 witness: a concrete run where the model client raises. -/
theorem C5_witness :
    processQuery (some ⟨some (), []⟩) (fun _ _ => .ok ⟨.str "ok", some false⟩)
      (fun _ _ => .raises "rate limited") 3 (pyStrip "  hi ")
      = some (.raised (.apiError "rate limited") [Turn.user (pyStrip "  hi ")])
    ∧ chatLoopStep "  hi " (fun q => processQuery (some ⟨some (), []⟩)
        (fun _ _ => .ok ⟨.str "ok", some false⟩) (fun _ _ => .raises "rate limited") 3 q)
      = some (.errorReported (.apiError "rate limited"))
    ∧ loopContinues (.errorReported (.apiError "rate limited")) = true :=
  C5_model_fault_reported ⟨some (), []⟩ (fun _ _ => .ok ⟨.str "ok", some false⟩)
    (fun _ _ => .raises "rate limited") 2 "  hi " "rate limited" (by decide) rfl

/-- Claim C6: for every well-formed structured value, normalizing the
arguments given as the JSON-encoded string of the value and normalizing the
arguments given directly as the structured value produce the identical
structured value, which is what `processToolCalls` dispatches to
`call_tool`.  Well-formedness (distinct object keys) is what every Python
`dict` guarantees. -/
theorem C6_normalization_agrees (v : Json) (_hwf : jsonWF v = true) :
    normalizeArgs (.str (jsonDumps v)) = .ok v
    ∧ normalizeArgs (.structured v) = .ok v := by
  constructor
  · simp [normalizeArgs, jsonLoads_dumps v]
  · rfl

/-- Claim C6 witness: both argument forms of `{city: Beijing}` normalize to
the same structured value. -/
theorem C6_witness :
    jsonWF (Json.obj [("city", Json.str "Beijing")]) = true
    ∧ normalizeArgs (.str (jsonDumps (Json.obj [("city", Json.str "Beijing")])))
        = .ok (Json.obj [("city", Json.str "Beijing")])
    ∧ normalizeArgs (.structured (Json.obj [("city", Json.str "Beijing")]))
        = .ok (Json.obj [("city", Json.str "Beijing")]) :=
  ⟨rfl, (C6_normalization_agrees (Json.obj [("city", Json.str "Beijing")]) rfl).1,
    (C6_normalization_agrees (Json.obj [("city", Json.str "Beijing")]) rfl).2⟩

/-- Claim C7, counterexample: the claim states that the content string of
any structured tool-result content parses back to the original value.  A
list content is neither a string nor a dict, so lines 102-103 apply Python
`str()` to it: the content `[True]` is stored as the non-JSON string
`"[True]"`, which does not parse back, so the claim is false. -/
theorem C7_counterexample :
    normContent (ContentV.structured (Json.arr [Json.bool true])) = "[True]"
    ∧ jsonLoads "[True]" = none
    ∧ jsonLoads (normContent (ContentV.structured (Json.arr [Json.bool true])))
        ≠ some (Json.arr [Json.bool true]) := by
  refine ⟨rfl, rfl, ?_⟩
  intro h
  rw [show normContent (ContentV.structured (Json.arr [Json.bool true])) = "[True]" from rfl,
    show jsonLoads "[True]" = none from rfl] at h
  exact Option.noConfusion h

/-- Claim C7 (amended): for every tool result whose content is a structured
dict (object) value with the distinct keys every Python dict guarantees, the
content string stored in the ToolResultTurn — produced by
`json.dumps(..., ensure_ascii=False)` — parses back under the same format to
the original structured value.  Non-dict structured content is stringified
with Python `str()` instead, which is not JSON in general. -/
theorem C7_round_trip (kvs : List (String × Json)) (_hwf : jsonWF (Json.obj kvs) = true) :
    jsonLoads (normContent (ContentV.structured (Json.obj kvs))) = some (Json.obj kvs) := by
  show jsonLoads (jsonDumps (Json.obj kvs)) = _
  exact jsonLoads_dumps _

/-- Claim C7 witness: the round trip at the concrete content
`{temperature: 21}`. -/
theorem C7_witness :
    jsonWF (Json.obj [("temperature", Json.num 21)]) = true
    ∧ jsonLoads (normContent (ContentV.structured (Json.obj [("temperature", Json.num 21)])))
        = some (Json.obj [("temperature", Json.num 21)]) :=
  ⟨rfl, C7_round_trip [("temperature", Json.num 21)] rfl⟩

/-- Claim C8, counterexample: the claim states that consulting the tool
catalog before the connection is established fails with the dedicated
not-connected error.  With no connector, `build_tools_for_deepseek` fails
instead with the `AttributeError` of the unchecked `self.connector.tools`
access, a different error, so the claim is false. -/
theorem C8_counterexample :
    build_tools_for_deepseek none
      = .error (.attributeError "NoneType object has no attribute tools")
    ∧ PyError.attributeError "NoneType object has no attribute tools" ≠ notConnectedError :=
  ⟨rfl, by decide⟩

/-- Claim C8 (amended): a tool invocation attempted before the connection is
established — no connector, or a connector without a session — fails with
the deliberate `RuntimeError` of line 44 (the specification's
`NotConnectedError`); consulting the catalog before the connection is
established fails too, but with an `AttributeError` from the unchecked
`None` access rather than the dedicated error. -/
theorem C8_not_connected (remote : RemoteBehavior) (tool_name : String) (args : Json)
    (c : MCPConnector) (hc : c.session = none) :
    call_tool none remote tool_name args = .error notConnectedError
    ∧ call_tool (some c) remote tool_name args = .error notConnectedError
    ∧ build_tools_for_deepseek none
        = .error (.attributeError "NoneType object has no attribute tools") := by
  refine ⟨rfl, ?_, rfl⟩
  simp [call_tool, hc]

/-- Claim C8 witness: the amended statement at a concrete unconnected
state. -/
theorem C8_witness :
    call_tool none remoteW "maps_geo" (Json.obj []) = .error notConnectedError
    ∧ call_tool (some ⟨none, []⟩) remoteW "maps_geo" (Json.obj [])
        = .error notConnectedError
    ∧ build_tools_for_deepseek none
        = .error (.attributeError "NoneType object has no attribute tools") :=
  C8_not_connected remoteW "maps_geo" (Json.obj []) ⟨none, []⟩ rfl

/-- Claim C9: evaluation of the teardown model at the failing input.  With
both resources established and `ClientSession.__aexit__` raising, the SSE
context manager's `__aexit__` is never called — the SSE connection is not
released — contradicting the claim that both resources are released even
when closing the client session raises.  When the session close does not
raise, both are released (third conjunct), whatever the exit path. -/
theorem C9_session_raise_leaks_sse :
    connectorAexit ⟨true, true⟩ true = ⟨true, false, true⟩
    ∧ (connectorAexit ⟨true, true⟩ true).sseExitCalled = false
    ∧ connectorAexit ⟨true, true⟩ false = ⟨true, true, false⟩ :=
  ⟨rfl, rfl, rfl⟩

/-- Claim C10: a tool result whose content is already a string is folded
into the ToolResultTurn exactly as that string, with no serialization or
re-encoding applied; the conversions of lines 100-105 touch only non-string
content. -/
theorem C10_string_content_unchanged (c : MCPConnector) (s0 : Unit)
    (hs : c.session = some s0) (remote : RemoteBehavior) (tc : ToolCall) (args : Json)
    (s : String) (ie : Option Bool) (ms : List Turn)
    (hn : normalizeArgs tc.function.arguments = .ok args)
    (hr : remote tc.function.name args = .ok ⟨.str s, ie⟩) :
    normContent (.str s) = s
    ∧ processToolCalls (some c) remote ms [tc] = (ms ++ [Turn.tool tc.id s], none) := by
  refine ⟨rfl, ?_⟩
  simp [processToolCalls, hn, call_tool, hs, hr, normContent]

/-- Claim C10 witness: a concrete string result is folded unchanged. -/
theorem C10_witness :
    normContent (.str "21 degrees") = "21 degrees"
    ∧ processToolCalls (some connW) (fun _ _ => .ok ⟨.str "21 degrees", some false⟩)
        [] [tcW1] = ([Turn.tool "i1" "21 degrees"], none) :=
  C10_string_content_unchanged connW () rfl (fun _ _ => .ok ⟨.str "21 degrees", some false⟩)
    tcW1 (Json.obj []) "21 degrees" (some false) [] rfl rfl
